/-
Verification of the forget-mult recurrence engine from
`torchqrnn/forget_mult.py` (pytorch-qrnn).

The development embeds, over exact rational arithmetic:
  * the CUDA kernel `recurrent_forget_mult` (forward) and
    `bwd_recurrent_forget_mult` (backward), modelled per thread on flat
    arrays `Nat → ℚ` with the source's linear index arithmetic;
  * the sequential reference `CPUForgetMult.forward`, modelled on a
    time-major list of matrices (a matrix is a lane-indexed function);
  * a shape-level model of `CPUForgetMult.forward` capturing the tensor
    library's broadcasting and error behaviour, for the error-handling
    claims;
  * the dispatch logic of `ForgetMult.forward`.
-/
import Mathlib

namespace TorchQRNN

/-- A (batch, hidden) matrix, flattened: lane index `l = bid * HIDDEN + hid`. -/
abbrev Mat : Type := Nat → ℚ

/-- The all-zero matrix (also used as a junk default for list indexing). -/
def mzero : Mat := fun _ => 0

/-!  Value-level model of `CPUForgetMult.forward` (forget_mult.py lines 77-90).

The Python code splits `f` and `f * x` along the time dimension and loops:

    forgets = f.split(1, dim=0)
    prev_h = hidden_init
    for i, h in enumerate((f * x).split(1, dim=0)):
        if prev_h is not None: h = h + (1 - forgets[i]) * prev_h
        h = h.view(h.size()[1:])
        result.append(h)
        prev_h = h
    return torch.stack(result)

Splitting along dim 0 is the list structure here; `f * x`, `+`, `1 - ·`
and `·  * ·` are element-wise and act independently on every lane, so a
timestep slice is a `Mat`; the `view` drops the leading singleton
dimension, which this representation does not materialise.  This model
covers the well-shaped case (`f` and `x` of equal shape); the shape-level
model below captures mismatched shapes and error behaviour. -/
def cpuForgetMultGo : List Mat → List Mat → Option Mat → List Mat
  | f_i :: forgets, h_i :: hs, prev_h =>
    let h : Mat := match prev_h with
      | none => h_i
      | some p => fun l => h_i l + (1 - f_i l) * p l
    h :: cpuForgetMultGo forgets hs (some h)
  | _, _, _ => []

/-- `CPUForgetMult.forward` on values: the loop above applied to the
time-slices of `f` and of the element-wise product `f * x`. -/
def CPUForgetMult_forward (f x : List Mat) (hidden_init : Option Mat) : List Mat :=
  cpuForgetMultGo f (List.zipWith (fun fm xm : Mat => fun l => fm l * xm l) f x) hidden_init

/-- The per-lane hidden sequence: `laneH fl xl h0 0 = h0` and
`laneH fl xl h0 (t+1) = fl t * xl t + (1 - fl t) * laneH fl xl h0 t`.
This is the scalar chain that one lane of either backend runs. -/
def laneH (fl xl : Nat → ℚ) (h0 : ℚ) : Nat → ℚ
  | 0 => h0
  | t + 1 => fl t * xl t + (1 - fl t) * laneH fl xl h0 t

/-!  Flat-array model of the CUDA kernel `recurrent_forget_mult`
(forget_mult.py kernel string, lines 10-37).  One thread owns lane
`(bid, hid)` and runs, for `ts = 1 .. SEQ`:

    int i           = (ts - 1) * HIDDEN * BATCH + bid * HIDDEN + hid;
    int dst_i       = (ts - 0) * HIDDEN * BATCH + bid * HIDDEN + hid;
    int dst_iminus1 = (ts - 1) * HIDDEN * BATCH + bid * HIDDEN + hid;
    dst[dst_i]      = f[i] * x[i];
    dst[dst_i]      += (1 - f[i]) * dst[dst_iminus1];

with an early return when `hid >= HIDDEN || bid >= BATCH`.  `dst` is one
timestep longer than `f`/`x`, with `dst[0] = h_{-1}` pre-filled by the
caller. -/
def fwd_step (BATCH HIDDEN : Nat) (f x : Nat → ℚ) (bid hid : Nat)
    (dst : Nat → ℚ) (ts : Nat) : Nat → ℚ :=
  let i := (ts - 1) * HIDDEN * BATCH + bid * HIDDEN + hid
  let dst_i := (ts - 0) * HIDDEN * BATCH + bid * HIDDEN + hid
  let dst_iminus1 := (ts - 1) * HIDDEN * BATCH + bid * HIDDEN + hid
  let d1 := Function.update dst dst_i (f i * x i)
  Function.update d1 dst_i (d1 dst_i + (1 - f i) * d1 dst_iminus1)

/-- The ascending loop `for (ts = 0 + 1; ts < SEQ + 1; ts++)`: running
`fwd_loop ... n` executes the body at `ts = 1, …, n` in order. -/
def fwd_loop (BATCH HIDDEN : Nat) (f x : Nat → ℚ) (bid hid : Nat)
    (dst : Nat → ℚ) : Nat → (Nat → ℚ)
  | 0 => dst
  | n + 1 => fwd_step BATCH HIDDEN f x bid hid (fwd_loop BATCH HIDDEN f x bid hid dst n) (n + 1)

/-- One thread of the forward kernel, including the bounds guard. -/
def recurrent_forget_mult (SEQ BATCH HIDDEN : Nat) (dst f x : Nat → ℚ)
    (bid hid : Nat) : Nat → ℚ :=
  if HIDDEN ≤ hid ∨ BATCH ≤ bid then dst
  else fwd_loop BATCH HIDDEN f x bid hid dst SEQ

/-!  Flat-array model of the CUDA kernel `bwd_recurrent_forget_mult`
(forget_mult.py kernel string, lines 40-68).  One thread owns lane
`(bid, hid)` and runs, with `running_f = 0`, for `ts = SEQ .. 1`:

    int i           = (ts - 1) * HIDDEN * BATCH + bid * HIDDEN + hid;
    int dst_iminus1 = (ts - 1) * HIDDEN * BATCH + bid * HIDDEN + hid;
    running_f       += gh[dst_iminus1];
    gx[i]           = f[i] * running_f;
    gf[i]           = (x[i] - h[dst_iminus1]) * running_f;
    running_f       = running_f - f[i] * running_f;

and finally `ghinit[bid * HIDDEN + hid] = running_f;`.  (The kernel also
computes an unused index `dst_i`.)  `h` is one timestep longer than the
other arrays, with `h[0] = h_{-1}`.  The state is `(gf, gx, running_f)`. -/
def bwd_step (BATCH HIDDEN : Nat) (h f x gh : Nat → ℚ) (bid hid : Nat)
    (st : (Nat → ℚ) × (Nat → ℚ) × ℚ) (ts : Nat) : (Nat → ℚ) × (Nat → ℚ) × ℚ :=
  let i := (ts - 1) * HIDDEN * BATCH + bid * HIDDEN + hid
  let dst_iminus1 := (ts - 1) * HIDDEN * BATCH + bid * HIDDEN + hid
  let running_f := st.2.2 + gh dst_iminus1
  let gx := Function.update st.2.1 i (f i * running_f)
  let gf := Function.update st.1 i ((x i - h dst_iminus1) * running_f)
  (gf, gx, running_f - f i * running_f)

/-- The descending loop `for (ts = SEQ - 1 + 1; ts >= 0 + 1; ts--)`:
running `bwd_loop ... n st` executes the body at `ts = n, n-1, …, 1`. -/
def bwd_loop (BATCH HIDDEN : Nat) (h f x gh : Nat → ℚ) (bid hid : Nat) :
    Nat → ((Nat → ℚ) × (Nat → ℚ) × ℚ) → (Nat → ℚ) × (Nat → ℚ) × ℚ
  | 0, st => st
  | n + 1, st => bwd_loop BATCH HIDDEN h f x gh bid hid n
      (bwd_step BATCH HIDDEN h f x gh bid hid st (n + 1))

/-- One thread of the backward kernel, including the bounds guard and the
final write of the accumulator into `ghinit`. -/
def bwd_recurrent_forget_mult (SEQ BATCH HIDDEN : Nat) (h f x gh gf gx ghinit : Nat → ℚ)
    (bid hid : Nat) : (Nat → ℚ) × (Nat → ℚ) × (Nat → ℚ) :=
  if HIDDEN ≤ hid ∨ BATCH ≤ bid then (gf, gx, ghinit)
  else
    let st := bwd_loop BATCH HIDDEN h f x gh bid hid SEQ (gf, gx, 0)
    (st.1, st.2.1, Function.update ghinit (bid * HIDDEN + hid) st.2.2)

/-- Per-lane accumulator of the backward scan: `laneAccBefore fl ghl n a t`
is the value of `running_f` at the start of iteration `ts = t`, when the
loop executes iterations `n, n-1, …, 1` starting from accumulator `a`
(meaningful for `1 ≤ t ≤ n`).  Iteration `ts` adds `ghl (ts-1)` and then
attenuates by `running_f - fl (ts-1) * running_f`. -/
def laneAccBefore (fl ghl : Nat → ℚ) : Nat → ℚ → Nat → ℚ
  | 0, a, _ => a
  | n + 1, a, t =>
    if t = n + 1 then a
    else laneAccBefore fl ghl n ((a + ghl n) - fl n * (a + ghl n)) t

/-- Per-lane final accumulator of the backward scan: the value of
`running_f` after iterations `n, n-1, …, 1` starting from `a`. -/
def laneAccFinal (fl ghl : Nat → ℚ) : Nat → ℚ → ℚ
  | 0, a => a
  | n + 1, a => laneAccFinal fl ghl n ((a + ghl n) - fl n * (a + ghl n))

/-!  Dispatch logic of `ForgetMult.forward` (forget_mult.py lines 109-117):

    use_cuda = use_cuda and torch.cuda.is_available()
    if use_cuda: assert f.is_cuda and x.is_cuda, 'GPU ForgetMult ...'
    if hidden_init is None: return GPUForgetMult()(f, x) if use_cuda else CPUForgetMult()(f, x)
    return GPUForgetMult()(f, x, hidden_init) if use_cuda else CPUForgetMult()(f, x, hidden_init)

The name `GPUForgetMult` is bound nowhere in the module (the file defines
only `CPUForgetMult` and `ForgetMult`, and imports `math`, `torch`,
`Variable`, `Program`, `namedtuple`), so evaluating the accelerated
branch raises a Python `NameError` before any kernel can run.  We model
the observable outcome of the dispatch. -/
inductive PyOutcome : Type
  | assertionError (msg : String)
  | nameError (msg : String)
  | callCPU (with_hidden_init : Bool)
  deriving DecidableEq, Repr

/-- The dispatch of `ForgetMult.forward`, as a function of the caller's
`use_cuda` flag, CUDA availability, the device residency of `f` and `x`,
and whether `hidden_init` was supplied. -/
def ForgetMult_forward (use_cuda cuda_available f_is_cuda x_is_cuda
    has_hidden_init : Bool) : PyOutcome :=
  let use_cuda := use_cuda && cuda_available
  if use_cuda && !(f_is_cuda && x_is_cuda) then
    .assertionError "GPU ForgetMult with fast element-wise CUDA kernel requested but tensors not on GPU"
  else if use_cuda then
    .nameError "name GPUForgetMult is not defined"
  else
    .callCPU has_hidden_init

/-!  Shape-level model of `CPUForgetMult.forward`.

`CPUForgetMult.forward` performs no shape validation of its own; whether
a call succeeds or raises is decided by the tensor library (PyTorch)
semantics of the operations it uses.  We model those semantics at the
level of shapes:
  * element-wise `*` and `+` broadcast their operands (align the shapes
    from the right; two sizes are compatible when equal or when one of
    them is 1) and fail otherwise;
  * `t.split(1, dim=0)` needs rank at least 1 and yields `t.shape[0]`
    slices of shape `1 :: rest`;
  * `h.view(h.size()[1:])` needs the element counts to agree;
  * `torch.stack(result)` rejects an empty list and requires all entries
    to have equal shape;
  * `forgets[i]` raises an index error when `i` is out of range. -/
abbrev Shape : Type := List Nat

/-- Number of elements of a shape. -/
def numel (s : Shape) : Nat := s.foldl (· * ·) 1

def broadcast_error_msg : String :=
  "RuntimeError: The size of a tensor must match the size of the other tensor at non-singleton dimension"

/-- Broadcasting on reversed (right-aligned) dimension lists. -/
def bcastDims : List Nat → List Nat → Except String (List Nat)
  | [], ys => .ok ys
  | x :: xs, [] => .ok (x :: xs)
  | x :: xs, y :: ys =>
    if x = y ∨ x = 1 ∨ y = 1 then
      (bcastDims xs ys).map (fun rest => (if x = 1 then y else if y = 1 then x else x) :: rest)
    else .error broadcast_error_msg

/-- Result shape of a broadcast element-wise operation, or an error. -/
def broadcastShapes (a b : Shape) : Except String Shape :=
  (bcastDims a.reverse b.reverse).map List.reverse

/-- Shape behaviour of `t.split(1, dim=0)`. -/
def split1Dim0 (s : Shape) : Except String (List Shape) :=
  match s with
  | [] => .error "IndexError: dimension out of range"
  | d :: rest => .ok (List.replicate d (1 :: rest))

/-- Shape behaviour of `h.view(h.size()[1:])`. -/
def viewTail (s : Shape) : Except String Shape :=
  match s with
  | [] => .error "IndexError: dimension out of range"
  | d :: rest =>
    if numel (d :: rest) = numel rest then .ok rest
    else .error "RuntimeError: invalid view size"

def stack_error_msg : String := "RuntimeError: stack expects a non-empty TensorList"

/-- Shape behaviour of `torch.stack(result)` (along dim 0). -/
def stackShapes : List Shape → Except String Shape
  | [] => .error stack_error_msg
  | s :: rest =>
    if rest.all (· = s) then .ok ((s :: rest).length :: s)
    else .error "RuntimeError: stack expects each tensor to be equal size"

/-- The loop of `CPUForgetMult.forward` at shape level: `pieces` are the
slices of `f * x`, `i` is the running index into `forgets` (accessed only
when `prev_h` is present, exactly as in the source). -/
def cpuShapeGo (forgets : List Shape) : List Shape → Option Shape → Nat → Except String (List Shape)
  | [], _, _ => .ok []
  | piece :: rest, prev_h, i =>
    match (match prev_h with
      | none => Except.ok piece
      | some p =>
        match forgets.get? i with
        | none => Except.error "IndexError: tuple index out of range"
        | some f_i =>
          match broadcastShapes f_i p with
          | .error e => Except.error e
          | .ok prod => broadcastShapes piece prod) with
    | .error e => .error e
    | .ok h0 =>
      match viewTail h0 with
      | .error e => .error e
      | .ok h =>
        match cpuShapeGo forgets rest (some h) (i + 1) with
        | .error e => .error e
        | .ok more => .ok (h :: more)

/-- `CPUForgetMult.forward` at shape level. -/
def CPUForgetMult_forward_shape (f x : Shape) (hidden_init : Option Shape) :
    Except String Shape :=
  match split1Dim0 f with
  | .error e => .error e
  | .ok forgets =>
    match broadcastShapes f x with
    | .error e => .error e
    | .ok fx =>
      match split1Dim0 fx with
      | .error e => .error e
      | .ok pieces =>
        match cpuShapeGo forgets pieces hidden_init 0 with
        | .error e => .error e
        | .ok result => stackShapes result

/-!  Helper abbreviations and lemmas. -/

theorem lane_lt (BATCH HIDDEN bid hid : Nat) (hh : hid < HIDDEN) (hb : bid < BATCH) :
    bid * HIDDEN + hid < HIDDEN * BATCH := by
  calc bid * HIDDEN + hid < bid * HIDDEN + HIDDEN := by omega
    _ = (bid + 1) * HIDDEN := by rw [Nat.succ_mul]
    _ ≤ BATCH * HIDDEN := Nat.mul_le_mul_right _ (Nat.succ_le_of_lt hb)
    _ = HIDDEN * BATCH := Nat.mul_comm _ _

/-- Distinct timesteps of one lane live at distinct flat indices. -/
theorem idx_ne (BATCH HIDDEN bid hid : Nat) (hh : hid < HIDDEN) (hb : bid < BATCH)
    {t1 t2 : Nat} (hne : t1 ≠ t2) :
    t1 * HIDDEN * BATCH + bid * HIDDEN + hid ≠ t2 * HIDDEN * BATCH + bid * HIDDEN + hid := by
  intro hEq
  apply hne
  have h1 : t1 * HIDDEN * BATCH = t2 * HIDDEN * BATCH := by omega
  rw [Nat.mul_assoc, Nat.mul_assoc] at h1
  have hpos : 0 < HIDDEN * BATCH :=
    Nat.lt_of_le_of_lt (Nat.zero_le _) (lane_lt BATCH HIDDEN bid hid hh hb)
  exact Nat.eq_of_mul_eq_mul_right hpos h1

theorem laneH_shift (fl xl : Nat → ℚ) (h0 : ℚ) (t : Nat) :
    laneH (fun k => fl (k + 1)) (fun k => xl (k + 1)) (laneH fl xl h0 1) t
      = laneH fl xl h0 (t + 1) := by
  induction t with
  | zero => rfl
  | succ t ih =>
    have h1 : laneH (fun k => fl (k + 1)) (fun k => xl (k + 1)) (laneH fl xl h0 1) (t + 1)
        = fl (t + 1) * xl (t + 1)
          + (1 - fl (t + 1)) * laneH (fun k => fl (k + 1)) (fun k => xl (k + 1)) (laneH fl xl h0 1) t := rfl
    rw [h1, ih]
    rfl

theorem laneH_congr (fl xl fl' xl' : Nat → ℚ) (h0 : ℚ) (t : Nat)
    (hf : ∀ k, k < t → fl k = fl' k) (hx : ∀ k, k < t → xl k = xl' k) :
    laneH fl xl h0 t = laneH fl' xl' h0 t := by
  induction t with
  | zero => rfl
  | succ t ih =>
    simp only [laneH]
    rw [hf t (Nat.lt_succ_self t), hx t (Nat.lt_succ_self t),
      ih (fun k hk => hf k (Nat.lt_succ_of_lt hk)) (fun k hk => hx k (Nat.lt_succ_of_lt hk))]

/-- Lane characterization of the loop of `CPUForgetMult.forward` when a
previous hidden state is present. -/
theorem cpuGo_some_getD (l : Nat) :
    ∀ (fs xs : List Mat) (p : Mat) (t : Nat), t < fs.length → fs.length = xs.length →
    ((cpuForgetMultGo fs (List.zipWith (fun fm xm : Mat => fun l => fm l * xm l) fs xs)
        (some p)).getD t mzero) l
      = laneH (fun k => (fs.getD k mzero) l) (fun k => (xs.getD k mzero) l) (p l) (t + 1) := by
  intro fs
  induction fs with
  | nil => intro xs p t ht _; exact absurd ht (by simp)
  | cons f0 fs ih =>
    intro xs p t ht hlen
    cases xs with
    | nil => simp at hlen
    | cons x0 xs =>
      cases t with
      | zero =>
        simp [List.zipWith, cpuForgetMultGo, laneH]
      | succ t =>
        have hlt : t < fs.length := by simpa using ht
        have hlen' : fs.length = xs.length := by simpa using hlen
        have hstep := ih xs (fun l => f0 l * x0 l + (1 - f0 l) * p l) t hlt hlen'
        simp only [List.zipWith, cpuForgetMultGo, List.getD_cons_succ]
        rw [hstep]
        exact laneH_shift (fun k => (((f0 :: fs).getD k mzero)) l)
          (fun k => (((x0 :: xs).getD k mzero)) l) (p l) (t + 1)

/-- Lane characterization of `CPUForgetMult.forward`: entry `t` of the
result (0-based, i.e. `H[t+1]`) is the per-lane recurrence, with an
absent `hidden_init` behaving as the zero matrix. -/
theorem cpu_getD (l : Nat) (fs xs : List Mat) (hidden_init : Option Mat) (t : Nat)
    (ht : t < fs.length) (hlen : fs.length = xs.length) :
    ((CPUForgetMult_forward fs xs hidden_init).getD t mzero) l
      = laneH (fun k => (fs.getD k mzero) l) (fun k => (xs.getD k mzero) l)
          ((hidden_init.getD mzero) l) (t + 1) := by
  cases hidden_init with
  | some p => exact cpuGo_some_getD l fs xs p t ht hlen
  | none =>
    cases fs with
    | nil => exact absurd ht (by simp)
    | cons f0 fs =>
      cases xs with
      | nil => simp at hlen
      | cons x0 xs =>
        cases t with
        | zero =>
          simp only [CPUForgetMult_forward, List.zipWith, cpuForgetMultGo, List.getD_cons_zero,
            laneH, List.getD_cons_zero, Option.getD, mzero]
          ring
        | succ t =>
          have hlt : t < fs.length := by simpa using ht
          have hlen' : fs.length = xs.length := by simpa using hlen
          have hstep := cpuGo_some_getD l fs xs (fun l => f0 l * x0 l) t hlt hlen'
          simp only [CPUForgetMult_forward, List.zipWith, cpuForgetMultGo, List.getD_cons_succ]
          rw [hstep]
          have hbase : f0 l * x0 l
              = laneH (fun k => (((f0 :: fs).getD k mzero)) l)
                  (fun k => (((x0 :: xs).getD k mzero)) l) ((Option.getD none mzero) l) 1 := by
            simp only [laneH, List.getD_cons_zero, Option.getD, mzero]
            ring
          calc laneH (fun k => (fs.getD k mzero) l) (fun k => (xs.getD k mzero) l)
                (f0 l * x0 l) (t + 1)
              = laneH (fun k => (((f0 :: fs).getD (k + 1) mzero)) l)
                  (fun k => (((x0 :: xs).getD (k + 1) mzero)) l)
                  (laneH (fun k => (((f0 :: fs).getD k mzero)) l)
                    (fun k => (((x0 :: xs).getD k mzero)) l) ((Option.getD none mzero) l) 1)
                  (t + 1) := by rw [← hbase]; rfl
            _ = laneH (fun k => (((f0 :: fs).getD k mzero)) l)
                  (fun k => (((x0 :: xs).getD k mzero)) l) ((Option.getD none mzero) l) (t + 1 + 1) :=
                laneH_shift (fun k => (((f0 :: fs).getD k mzero)) l)
                  (fun k => (((x0 :: xs).getD k mzero)) l) ((Option.getD none mzero) l) (t + 1)

/-- Lane characterization of the forward-kernel loop: after `n`
iterations, the owned slot of timestep `ts ≤ n` holds the per-lane
recurrence value seeded from the pre-filled `dst[0]` slot. -/
theorem fwd_loop_lane (BATCH HIDDEN : Nat) (f x : Nat → ℚ) (bid hid : Nat)
    (hh : hid < HIDDEN) (hb : bid < BATCH) (dst : Nat → ℚ) (n : Nat) :
    ∀ ts, ts ≤ n →
      fwd_loop BATCH HIDDEN f x bid hid dst n (ts * HIDDEN * BATCH + bid * HIDDEN + hid)
        = laneH (fun k => f (k * HIDDEN * BATCH + bid * HIDDEN + hid))
            (fun k => x (k * HIDDEN * BATCH + bid * HIDDEN + hid))
            (dst (0 * HIDDEN * BATCH + bid * HIDDEN + hid)) ts := by
  induction n with
  | zero =>
    intro ts hts
    have h0 : ts = 0 := Nat.le_zero.mp hts
    subst h0
    rfl
  | succ n ih =>
    intro ts hts
    rw [fwd_loop]
    simp only [fwd_step, Nat.sub_zero, Nat.add_sub_cancel]
    rcases eq_or_lt_of_le hts with heq | hlt
    · subst heq
      rw [Function.update_same, Function.update_same]
      rw [Function.update_noteq
          (idx_ne BATCH HIDDEN bid hid hh hb (by omega : (n + 1 - 1 : Nat) ≠ n + 1))]
      rw [show (n + 1 - 1 : Nat) = n from rfl]
      rw [ih n (Nat.le_refl n)]
      rfl
    · have hts' : ts ≤ n := Nat.lt_succ_iff.mp hlt
      have hne : ts * HIDDEN * BATCH + bid * HIDDEN + hid
          ≠ (n + 1) * HIDDEN * BATCH + bid * HIDDEN + hid :=
        idx_ne BATCH HIDDEN bid hid hh hb (by omega)
      rw [Function.update_noteq hne, Function.update_noteq hne]
      exact ih ts hts'

/-- Lane characterization of the backward-kernel loop: running the loop
for iterations `ts = n .. 1` from state `(gf0, gx0, a)` yields the
accumulator scan `laneAccFinal`, writes the gradient formulas (with the
mid-iteration accumulator value) at the owned slots of `t = 1 .. n`, and
leaves every other slot of `gx`/`gf` untouched. -/
theorem bwd_loop_spec (BATCH HIDDEN : Nat) (h f x gh : Nat → ℚ) (bid hid : Nat)
    (hh : hid < HIDDEN) (hb : bid < BATCH) :
    ∀ (n : Nat) (gf0 gx0 : Nat → ℚ) (a : ℚ),
      ((bwd_loop BATCH HIDDEN h f x gh bid hid n (gf0, gx0, a)).2.2
          = laneAccFinal (fun k => f (k * HIDDEN * BATCH + bid * HIDDEN + hid))
              (fun k => gh (k * HIDDEN * BATCH + bid * HIDDEN + hid)) n a)
      ∧ (∀ t, 1 ≤ t → t ≤ n →
          (bwd_loop BATCH HIDDEN h f x gh bid hid n (gf0, gx0, a)).2.1
              ((t - 1) * HIDDEN * BATCH + bid * HIDDEN + hid)
            = f ((t - 1) * HIDDEN * BATCH + bid * HIDDEN + hid)
              * (laneAccBefore (fun k => f (k * HIDDEN * BATCH + bid * HIDDEN + hid))
                  (fun k => gh (k * HIDDEN * BATCH + bid * HIDDEN + hid)) n a t
                + gh ((t - 1) * HIDDEN * BATCH + bid * HIDDEN + hid))
          ∧ (bwd_loop BATCH HIDDEN h f x gh bid hid n (gf0, gx0, a)).1
              ((t - 1) * HIDDEN * BATCH + bid * HIDDEN + hid)
            = (x ((t - 1) * HIDDEN * BATCH + bid * HIDDEN + hid)
                - h ((t - 1) * HIDDEN * BATCH + bid * HIDDEN + hid))
              * (laneAccBefore (fun k => f (k * HIDDEN * BATCH + bid * HIDDEN + hid))
                  (fun k => gh (k * HIDDEN * BATCH + bid * HIDDEN + hid)) n a t
                + gh ((t - 1) * HIDDEN * BATCH + bid * HIDDEN + hid)))
      ∧ (∀ j, (∀ t, 1 ≤ t → t ≤ n → j ≠ (t - 1) * HIDDEN * BATCH + bid * HIDDEN + hid) →
          (bwd_loop BATCH HIDDEN h f x gh bid hid n (gf0, gx0, a)).2.1 j = gx0 j
          ∧ (bwd_loop BATCH HIDDEN h f x gh bid hid n (gf0, gx0, a)).1 j = gf0 j) := by
  intro n
  induction n with
  | zero =>
    intro gf0 gx0 a
    refine ⟨rfl, ?_, ?_⟩
    · intro t ht1 ht2
      omega
    · intro j hj
      exact ⟨rfl, rfl⟩
  | succ n ih =>
    intro gf0 gx0 a
    have hstep : bwd_step BATCH HIDDEN h f x gh bid hid (gf0, gx0, a) (n + 1)
        = (Function.update gf0 (n * HIDDEN * BATCH + bid * HIDDEN + hid)
            ((x (n * HIDDEN * BATCH + bid * HIDDEN + hid)
              - h (n * HIDDEN * BATCH + bid * HIDDEN + hid))
              * (a + gh (n * HIDDEN * BATCH + bid * HIDDEN + hid))),
          Function.update gx0 (n * HIDDEN * BATCH + bid * HIDDEN + hid)
            (f (n * HIDDEN * BATCH + bid * HIDDEN + hid)
              * (a + gh (n * HIDDEN * BATCH + bid * HIDDEN + hid))),
          (a + gh (n * HIDDEN * BATCH + bid * HIDDEN + hid))
            - f (n * HIDDEN * BATCH + bid * HIDDEN + hid)
              * (a + gh (n * HIDDEN * BATCH + bid * HIDDEN + hid))) := rfl
    have ih' := ih
      (Function.update gf0 (n * HIDDEN * BATCH + bid * HIDDEN + hid)
        ((x (n * HIDDEN * BATCH + bid * HIDDEN + hid)
          - h (n * HIDDEN * BATCH + bid * HIDDEN + hid))
          * (a + gh (n * HIDDEN * BATCH + bid * HIDDEN + hid))))
      (Function.update gx0 (n * HIDDEN * BATCH + bid * HIDDEN + hid)
        (f (n * HIDDEN * BATCH + bid * HIDDEN + hid)
          * (a + gh (n * HIDDEN * BATCH + bid * HIDDEN + hid))))
      ((a + gh (n * HIDDEN * BATCH + bid * HIDDEN + hid))
        - f (n * HIDDEN * BATCH + bid * HIDDEN + hid)
          * (a + gh (n * HIDDEN * BATCH + bid * HIDDEN + hid)))
    rw [bwd_loop, hstep]
    refine ⟨?_, ?_, ?_⟩
    · rw [ih'.1]
      simp only [laneAccFinal]
    · intro t ht1 ht2
      rcases eq_or_lt_of_le ht2 with heq | hlt
      · subst heq
        rw [show (n + 1 - 1 : Nat) = n from rfl]
        have hframe := ih'.2.2 (n * HIDDEN * BATCH + bid * HIDDEN + hid)
          (fun t' h1 h2 => idx_ne BATCH HIDDEN bid hid hh hb (by omega))
        constructor
        · rw [hframe.1, Function.update_same]
          simp only [laneAccBefore, eq_self_iff_true, if_true]
        · rw [hframe.2, Function.update_same]
          simp only [laneAccBefore, eq_self_iff_true, if_true]
      · have hle : t ≤ n := Nat.lt_succ_iff.mp hlt
        have hmain := ih'.2.1 t ht1 hle
        constructor
        · rw [hmain.1]
          simp only [laneAccBefore, if_neg (by omega : ¬ t = n + 1)]
        · rw [hmain.2]
          simp only [laneAccBefore, if_neg (by omega : ¬ t = n + 1)]
    · intro j hj
      have hj' : ∀ t, 1 ≤ t → t ≤ n → j ≠ (t - 1) * HIDDEN * BATCH + bid * HIDDEN + hid :=
        fun t h1 h2 => hj t h1 (Nat.le_succ_of_le h2)
      have hjn : j ≠ n * HIDDEN * BATCH + bid * HIDDEN + hid := by
        have := hj (n + 1) (by omega) (Nat.le_refl _)
        rwa [show (n + 1 - 1 : Nat) = n from rfl] at this
      have hframe := ih'.2.2 j hj'
      constructor
      · rw [hframe.1, Function.update_noteq hjn]
      · rw [hframe.2, Function.update_noteq hjn]

/-!  Claim theorems. -/

/-- Claim C1: for every feature sequence X and gate sequence F of equal
shape and every initial state H0 (the zero matrix when absent), the
forward operation — the sequential `CPUForgetMult.forward` on any lane,
and the `recurrent_forget_mult` kernel thread on its owned lane — returns
the hidden sequence satisfying `H[t] = F[t]*X[t] + (1 - F[t])*H[t-1]`
with `H[0] = H0`, for every `t` in range. -/
theorem forward_recurrence_invariant
    (f x : List Mat) (hidden_init : Option Mat) (hlen : f.length = x.length)
    (t l : Nat) (ht : t < f.length)
    (SEQ BATCH HIDDEN bid hid : Nat) (hh : hid < HIDDEN) (hb : bid < BATCH)
    (fA xA dst : Nat → ℚ) (htS : t < SEQ) :
    (((hidden_init.getD mzero) :: CPUForgetMult_forward f x hidden_init).getD (t + 1) mzero) l
      = (f.getD t mzero) l * (x.getD t mzero) l
        + (1 - (f.getD t mzero) l)
          * (((hidden_init.getD mzero) :: CPUForgetMult_forward f x hidden_init).getD t mzero) l
    ∧ recurrent_forget_mult SEQ BATCH HIDDEN dst fA xA bid hid
        ((t + 1) * HIDDEN * BATCH + bid * HIDDEN + hid)
      = fA (t * HIDDEN * BATCH + bid * HIDDEN + hid)
          * xA (t * HIDDEN * BATCH + bid * HIDDEN + hid)
        + (1 - fA (t * HIDDEN * BATCH + bid * HIDDEN + hid))
          * recurrent_forget_mult SEQ BATCH HIDDEN dst fA xA bid hid
              (t * HIDDEN * BATCH + bid * HIDDEN + hid) := by
  constructor
  · rw [List.getD_cons_succ, cpu_getD l f x hidden_init t ht hlen]
    cases t with
    | zero =>
      simp only [List.getD_cons_zero, laneH]
    | succ t' =>
      rw [List.getD_cons_succ, cpu_getD l f x hidden_init t' (Nat.lt_of_succ_lt ht) hlen]
      simp only [laneH]
  · have hg : ¬ (HIDDEN ≤ hid ∨ BATCH ≤ bid) := by omega
    simp only [recurrent_forget_mult, if_neg hg]
    rw [fwd_loop_lane BATCH HIDDEN fA xA bid hid hh hb dst SEQ (t + 1) (Nat.succ_le_of_lt htS),
      fwd_loop_lane BATCH HIDDEN fA xA bid hid hh hb dst SEQ t (Nat.le_of_lt htS)]
    simp only [laneH]

/-- Witness for the C1 theorem at a concrete input (T = 1, one lane). -/
theorem forward_recurrence_invariant_witness :
    (((Option.getD (none : Option Mat) mzero)
        :: CPUForgetMult_forward [fun _ => (1:ℚ)/2] [fun _ => (3:ℚ)] none).getD 1 mzero) 0
      = ((([fun _ => (1:ℚ)/2] : List Mat).getD 0 mzero) 0)
          * ((([fun _ => (3:ℚ)] : List Mat).getD 0 mzero) 0)
        + (1 - (([fun _ => (1:ℚ)/2] : List Mat).getD 0 mzero) 0)
          * (((Option.getD (none : Option Mat) mzero)
              :: CPUForgetMult_forward [fun _ => (1:ℚ)/2] [fun _ => (3:ℚ)] none).getD 0 mzero) 0
    ∧ recurrent_forget_mult 1 1 1 (fun _ => 0) (fun _ => (1:ℚ)/2) (fun _ => (3:ℚ)) 0 0 1
      = (fun _ => (1:ℚ)/2) 0 * (fun _ => (3:ℚ)) 0
        + (1 - (fun _ => (1:ℚ)/2) 0)
          * recurrent_forget_mult 1 1 1 (fun _ => 0) (fun _ => (1:ℚ)/2) (fun _ => (3:ℚ)) 0 0 0 :=
  forward_recurrence_invariant [fun _ => (1:ℚ)/2] [fun _ => (3:ℚ)] none rfl 0 0
    (by decide) 1 1 1 0 0 (by decide) (by decide)
    (fun _ => (1:ℚ)/2) (fun _ => (3:ℚ)) (fun _ => 0) (by decide)

/-- Claim C3: the accelerated lane-parallel backend (the
`recurrent_forget_mult` kernel on flattened arrays) and the sequential
reference backend (`CPUForgetMult.forward`) compute the same hidden
sequence — exactly equal under the exact rational arithmetic of this
model — at every timestep of every lane, whenever the flat arrays hold
the same inputs as the time-major lists and `dst[0]` is pre-filled with
the initial state. -/
theorem backends_agree
    (f x : List Mat) (hidden_init : Option Mat) (hlen : f.length = x.length)
    (SEQ BATCH HIDDEN bid hid : Nat) (hh : hid < HIDDEN) (hb : bid < BATCH)
    (hSEQ : SEQ = f.length)
    (fA xA dst : Nat → ℚ)
    (hfA : ∀ k, k < SEQ → fA (k * HIDDEN * BATCH + bid * HIDDEN + hid)
        = (f.getD k mzero) (bid * HIDDEN + hid))
    (hxA : ∀ k, k < SEQ → xA (k * HIDDEN * BATCH + bid * HIDDEN + hid)
        = (x.getD k mzero) (bid * HIDDEN + hid))
    (hdst : dst (0 * HIDDEN * BATCH + bid * HIDDEN + hid)
        = (hidden_init.getD mzero) (bid * HIDDEN + hid))
    (t : Nat) (ht : t < SEQ) :
    recurrent_forget_mult SEQ BATCH HIDDEN dst fA xA bid hid
        ((t + 1) * HIDDEN * BATCH + bid * HIDDEN + hid)
      = ((CPUForgetMult_forward f x hidden_init).getD t mzero) (bid * HIDDEN + hid) := by
  have hg : ¬ (HIDDEN ≤ hid ∨ BATCH ≤ bid) := by omega
  simp only [recurrent_forget_mult, if_neg hg]
  rw [fwd_loop_lane BATCH HIDDEN fA xA bid hid hh hb dst SEQ (t + 1) (Nat.succ_le_of_lt ht)]
  rw [cpu_getD (bid * HIDDEN + hid) f x hidden_init t (hSEQ ▸ ht) hlen]
  rw [hdst]
  exact laneH_congr _ _ _ _ _ (t + 1)
    (fun k hk => hfA k (by omega)) (fun k hk => hxA k (by omega))

/-- Witness for the C3 theorem at a concrete input (T = 1, one lane,
with an explicit initial state). -/
theorem backends_agree_witness :
    recurrent_forget_mult 1 1 1 (fun _ => (9:ℚ)) (fun _ => (1:ℚ)/3) (fun _ => (6:ℚ)) 0 0 1
      = ((CPUForgetMult_forward [fun _ => (1:ℚ)/3] [fun _ => (6:ℚ)]
          (some (fun _ => (9:ℚ)))).getD 0 mzero) 0 :=
  backends_agree [fun _ => (1:ℚ)/3] [fun _ => (6:ℚ)] (some (fun _ => (9:ℚ))) rfl
    1 1 1 0 0 (by decide) (by decide) rfl
    (fun _ => (1:ℚ)/3) (fun _ => (6:ℚ)) (fun _ => (9:ℚ))
    (fun k hk => by
      obtain rfl : k = 0 := by omega
      rfl)
    (fun k hk => by
      obtain rfl : k = 0 := by omega
      rfl)
    rfl 0 (by decide)

/-- Claim C4: the accumulator update `running_f - f[i] * running_f`
performed by the backward kernel step equals the `(1 - f[i])` form of the
attenuation, and in general `acc - fv * acc = (1 - fv) * acc`. -/
theorem acc_update_forms_agree (BATCH HIDDEN : Nat) (h f x gh : Nat → ℚ)
    (bid hid ts : Nat) (st : (Nat → ℚ) × (Nat → ℚ) × ℚ) :
    ((bwd_step BATCH HIDDEN h f x gh bid hid st ts).2.2
      = (1 - f ((ts - 1) * HIDDEN * BATCH + bid * HIDDEN + hid))
        * (st.2.2 + gh ((ts - 1) * HIDDEN * BATCH + bid * HIDDEN + hid)))
    ∧ ∀ (acc fv : ℚ), acc - fv * acc = (1 - fv) * acc := by
  constructor
  · simp only [bwd_step]
    ring
  · intro acc fv
    ring

/-- Claim C5: calling the sequential forward with no initial state
returns exactly the same hidden sequence as calling it with an explicit
all-zero initial state. -/
theorem absent_hidden_init_is_zero (f x : List Mat) :
    CPUForgetMult_forward f x none = CPUForgetMult_forward f x (some mzero) := by
  cases f with
  | nil => rfl
  | cons f0 fs =>
    cases x with
    | nil => rfl
    | cons x0 xs =>
      simp only [CPUForgetMult_forward, List.zipWith, cpuForgetMultGo]
      have hzero : (fun l => f0 l * x0 l + (1 - f0 l) * mzero l) = fun l : Nat => f0 l * x0 l := by
        funext l
        simp [mzero]
      rw [hzero]

/-- Claim C6: on the concrete scenario T = 4, batch = hidden = 1,
X = [0.75, 0.5, 0.9, 0.8], F = [0.25, 0.25, 0.5, 0.4], H0 = [0], the
forward operation returns exactly
[0.1875, 0.265625, 0.5828125, 0.6696875]. -/
theorem concrete_scenario_values :
    (CPUForgetMult_forward
        [fun _ => (1:ℚ)/4, fun _ => (1:ℚ)/4, fun _ => (1:ℚ)/2, fun _ => (2:ℚ)/5]
        [fun _ => (3:ℚ)/4, fun _ => (1:ℚ)/2, fun _ => (9:ℚ)/10, fun _ => (4:ℚ)/5]
        (some (fun _ => 0))).map (fun m => m 0)
      = [(3:ℚ)/16, 17/64, 373/640, 2143/3200] := by
  norm_num [CPUForgetMult_forward, cpuForgetMultGo]

/-- Claim C2: for every T ≥ 1 and every in-range lane, the backward
kernel computes, with an accumulator initialized to 0 and iterating
t = T down to 1 (`acc += gH[t]`; `dX[t] = F[t]*acc`;
`dF[t] = (X[t] - H[t-1])*acc`; `acc = acc - F[t]*acc`), the gradient
entries of `gx` and `gf` at every owned slot, and returns `dH0 = acc`
in `ghinit` after the loop. -/
theorem backward_gradient_formulas
    (SEQ BATCH HIDDEN : Nat) (h f x gh gf gx ghinit : Nat → ℚ) (bid hid : Nat)
    (hh : hid < HIDDEN) (hb : bid < BATCH) (_hT : 1 ≤ SEQ)
    (t : Nat) (ht1 : 1 ≤ t) (ht2 : t ≤ SEQ) :
    ((bwd_recurrent_forget_mult SEQ BATCH HIDDEN h f x gh gf gx ghinit bid hid).2.1
        ((t - 1) * HIDDEN * BATCH + bid * HIDDEN + hid)
      = f ((t - 1) * HIDDEN * BATCH + bid * HIDDEN + hid)
        * (laneAccBefore (fun k => f (k * HIDDEN * BATCH + bid * HIDDEN + hid))
            (fun k => gh (k * HIDDEN * BATCH + bid * HIDDEN + hid)) SEQ 0 t
          + gh ((t - 1) * HIDDEN * BATCH + bid * HIDDEN + hid)))
    ∧ ((bwd_recurrent_forget_mult SEQ BATCH HIDDEN h f x gh gf gx ghinit bid hid).1
        ((t - 1) * HIDDEN * BATCH + bid * HIDDEN + hid)
      = (x ((t - 1) * HIDDEN * BATCH + bid * HIDDEN + hid)
          - h ((t - 1) * HIDDEN * BATCH + bid * HIDDEN + hid))
        * (laneAccBefore (fun k => f (k * HIDDEN * BATCH + bid * HIDDEN + hid))
            (fun k => gh (k * HIDDEN * BATCH + bid * HIDDEN + hid)) SEQ 0 t
          + gh ((t - 1) * HIDDEN * BATCH + bid * HIDDEN + hid)))
    ∧ ((bwd_recurrent_forget_mult SEQ BATCH HIDDEN h f x gh gf gx ghinit bid hid).2.2
        (bid * HIDDEN + hid)
      = laneAccFinal (fun k => f (k * HIDDEN * BATCH + bid * HIDDEN + hid))
          (fun k => gh (k * HIDDEN * BATCH + bid * HIDDEN + hid)) SEQ 0) := by
  have hg : ¬ (HIDDEN ≤ hid ∨ BATCH ≤ bid) := by omega
  have hspec := bwd_loop_spec BATCH HIDDEN h f x gh bid hid hh hb SEQ gf gx 0
  simp only [bwd_recurrent_forget_mult, if_neg hg]
  refine ⟨?_, ?_, ?_⟩
  · exact (hspec.2.1 t ht1 ht2).1
  · exact (hspec.2.1 t ht1 ht2).2
  · rw [Function.update_same]
    exact hspec.1

/-- Witness for the C2 theorem at a concrete input (T = 1, one lane). -/
theorem backward_gradient_formulas_witness :
    ((bwd_recurrent_forget_mult 1 1 1 (fun _ => (3:ℚ)) (fun _ => (1:ℚ)/2) (fun _ => (2:ℚ))
        (fun _ => (5:ℚ)) (fun _ => 0) (fun _ => 0) (fun _ => 0) 0 0).2.1 0
      = (fun _ => (1:ℚ)/2) 0
        * (laneAccBefore (fun k => (fun _ => (1:ℚ)/2) (k * 1 * 1 + 0 * 1 + 0))
            (fun k => (fun _ => (5:ℚ)) (k * 1 * 1 + 0 * 1 + 0)) 1 0 1 + (fun _ => (5:ℚ)) 0))
    ∧ ((bwd_recurrent_forget_mult 1 1 1 (fun _ => (3:ℚ)) (fun _ => (1:ℚ)/2) (fun _ => (2:ℚ))
        (fun _ => (5:ℚ)) (fun _ => 0) (fun _ => 0) (fun _ => 0) 0 0).1 0
      = ((fun _ => (2:ℚ)) 0 - (fun _ => (3:ℚ)) 0)
        * (laneAccBefore (fun k => (fun _ => (1:ℚ)/2) (k * 1 * 1 + 0 * 1 + 0))
            (fun k => (fun _ => (5:ℚ)) (k * 1 * 1 + 0 * 1 + 0)) 1 0 1 + (fun _ => (5:ℚ)) 0))
    ∧ ((bwd_recurrent_forget_mult 1 1 1 (fun _ => (3:ℚ)) (fun _ => (1:ℚ)/2) (fun _ => (2:ℚ))
        (fun _ => (5:ℚ)) (fun _ => 0) (fun _ => 0) (fun _ => 0) 0 0).2.2 0
      = laneAccFinal (fun k => (fun _ => (1:ℚ)/2) (k * 1 * 1 + 0 * 1 + 0))
          (fun k => (fun _ => (5:ℚ)) (k * 1 * 1 + 0 * 1 + 0)) 1 0) :=
  backward_gradient_formulas 1 1 1 (fun _ => (3:ℚ)) (fun _ => (1:ℚ)/2) (fun _ => (2:ℚ))
    (fun _ => (5:ℚ)) (fun _ => 0) (fun _ => 0) (fun _ => 0) 0 0
    (by decide) (by decide) (by decide) 1 (by decide) (by decide)

/-- Claim C7 counterexample: at T = 0 the sequential forward does not
succeed with an empty output: stacking the empty result list is an error
in the tensor library, so the call fails. -/
theorem t0_forward_errors :
    CPUForgetMult_forward_shape [0, 1, 1] [0, 1, 1] none = .error stack_error_msg := rfl

theorem bcastDims_self (l : List Nat) : bcastDims l l = .ok l := by
  induction l with
  | nil => rfl
  | cons a l ih => simp [bcastDims, ih, Except.map]

/-- Claim C7 amended: at T = 0 the sequential forward fails (stacking the
empty result list is rejected by the tensor library), while the backward
kernel runs zero loop iterations, leaves `gf` and `gx` untouched and
writes `dH0 = 0`, the zero accumulator, for its lane. -/
theorem t0_behaviour (s : Shape) (hidden_init : Option Shape)
    (BATCH HIDDEN : Nat) (h f x gh gf gx ghinit : Nat → ℚ) (bid hid : Nat)
    (hh : hid < HIDDEN) (hb : bid < BATCH) :
    CPUForgetMult_forward_shape (0 :: s) (0 :: s) hidden_init = .error stack_error_msg
    ∧ bwd_recurrent_forget_mult 0 BATCH HIDDEN h f x gh gf gx ghinit bid hid
        = (gf, gx, Function.update ghinit (bid * HIDDEN + hid) 0) := by
  constructor
  · have hb1 : broadcastShapes (0 :: s) (0 :: s) = .ok (0 :: s) := by
      simp [broadcastShapes, bcastDims_self, Except.map]
    simp [CPUForgetMult_forward_shape, split1Dim0, hb1, cpuShapeGo, stackShapes]
  · have hg : ¬ (HIDDEN ≤ hid ∨ BATCH ≤ bid) := by omega
    simp only [bwd_recurrent_forget_mult, if_neg hg]
    rfl

/-- Witness for the C7 amended theorem at a concrete input. -/
theorem t0_behaviour_witness :
    CPUForgetMult_forward_shape (0 :: [2, 3]) (0 :: [2, 3]) none = .error stack_error_msg
    ∧ bwd_recurrent_forget_mult 0 1 1 (fun _ => (0:ℚ)) (fun _ => 0) (fun _ => 0) (fun _ => 0)
        (fun _ => 0) (fun _ => 0) (fun _ => 0) 0 0
      = (fun _ => (0:ℚ), fun _ => (0:ℚ), Function.update (fun _ => (0:ℚ)) (0 * 1 + 0) 0) :=
  t0_behaviour [2, 3] none 1 1 (fun _ => 0) (fun _ => 0) (fun _ => 0) (fun _ => 0)
    (fun _ => 0) (fun _ => 0) (fun _ => 0) 0 0 (by decide) (by decide)

/-- Claim C8 counterexample: with acceleration explicitly requested
(`use_cuda = true`) but CUDA unavailable and both operands CPU-resident,
the dispatch silently calls the sequential CPU backend instead of
failing with a placement error. -/
theorem silent_fallback_when_cuda_unavailable :
    ForgetMult_forward true false false false false = PyOutcome.callCPU false := rfl

/-- Claim C8 amended: when acceleration is requested and CUDA is
available, a placement assertion fails if `f` or `x` is not
CUDA-resident; when CUDA is unavailable the dispatch silently falls back
to the sequential backend regardless of the request. -/
theorem placement_check_when_cuda_available
    (use_cuda f_is_cuda x_is_cuda has_hidden_init : Bool)
    (hfx : (f_is_cuda && x_is_cuda) = false) :
    ForgetMult_forward true true f_is_cuda x_is_cuda has_hidden_init
      = PyOutcome.assertionError
          "GPU ForgetMult with fast element-wise CUDA kernel requested but tensors not on GPU"
    ∧ ForgetMult_forward use_cuda false f_is_cuda x_is_cuda has_hidden_init
      = PyOutcome.callCPU has_hidden_init := by
  constructor
  · simp [ForgetMult_forward, hfx]
  · cases use_cuda <;> rfl

/-- Witness for the C8 amended theorem at a concrete input. -/
theorem placement_check_when_cuda_available_witness :
    ForgetMult_forward true true false true false
      = PyOutcome.assertionError
          "GPU ForgetMult with fast element-wise CUDA kernel requested but tensors not on GPU"
    ∧ ForgetMult_forward true false false true false = PyOutcome.callCPU false :=
  placement_check_when_cuda_available true false true false rfl

/-- Claim C9 counterexample, refuting both halves of the claim: F of
shape (1,1,1) and X of the different shape (1,2,1) do not fail with a
shape error — the element-wise product broadcasts and the forward
succeeds, returning shape (1,2,1); and H0 of shape (1,1), which differs
from the trailing (batch, hidden) = (2,3) dimensions of F = X = (3,2,3),
does not fail either — it broadcasts against every step and the forward
succeeds, returning shape (3,2,3). -/
theorem broadcast_mismatch_succeeds :
    CPUForgetMult_forward_shape [1, 1, 1] [1, 2, 1] none = .ok [1, 2, 1]
    ∧ CPUForgetMult_forward_shape [3, 2, 3] [3, 2, 3] (some [1, 1]) = .ok [3, 2, 3] :=
  ⟨rfl, rfl⟩

theorem bcastDims_bad (a b : Nat) (hab : a ≠ b) (ha : a ≠ 1) (hb : b ≠ 1) :
    ∀ (xs ys : List Nat), (a, b) ∈ xs.zip ys →
      bcastDims xs ys = .error broadcast_error_msg := by
  intro xs
  induction xs with
  | nil => intro ys hmem; simp [List.zip] at hmem
  | cons u xs ih =>
    intro ys hmem
    cases ys with
    | nil => simp [List.zip] at hmem
    | cons v ys =>
      rw [List.zip_cons_cons] at hmem
      rcases List.mem_cons.mp hmem with heq | htail
      · obtain ⟨rfl, rfl⟩ : a = u ∧ b = v := Prod.mk.injEq .. ▸ heq
        simp only [bcastDims]
        rw [if_neg (by tauto)]
      · by_cases hc : u = v ∨ u = 1 ∨ v = 1
        · simp only [bcastDims, if_pos hc, ih ys htail, Except.map]
        · simp only [bcastDims, if_neg hc]

theorem zip_reverse_eq {α β : Type} :
    ∀ (as : List α) (bs : List β), as.length = bs.length →
      as.reverse.zip bs.reverse = (as.zip bs).reverse := by
  intro as
  induction as with
  | nil => intro bs hlen; simp
  | cons a as ih =>
    intro bs hlen
    cases bs with
    | nil => simp at hlen
    | cons b bs =>
      simp only [List.reverse_cons, List.zip_cons_cons]
      rw [List.zip_append (by simpa using hlen), ih bs (by simpa using hlen)]
      rfl

/-- Claim C9 amended: the forward performs no shape validation of its
own, so not every shape mismatch fails: F = (1,1,1) with X = (1,2,1)
succeeds with output shape (1,2,1), and H0 = (1,1) with
F = X = (3,2,3) succeeds with output shape (3,2,3); whenever F and X
have equal rank and some right-aligned pair of their dimensions has two
different sizes neither of which is 1, the forward does fail, with the
tensor library's broadcast shape error. -/
theorem incompatible_shapes_error (fs xs : Shape) (hidden_init : Option Shape) (a b : Nat)
    (hlen : fs.length = xs.length) (hmem : (a, b) ∈ fs.reverse.zip xs.reverse)
    (hab : a ≠ b) (ha : a ≠ 1) (hb : b ≠ 1) :
    CPUForgetMult_forward_shape fs xs hidden_init = .error broadcast_error_msg
    ∧ CPUForgetMult_forward_shape [1, 1, 1] [1, 2, 1] none = .ok [1, 2, 1]
    ∧ CPUForgetMult_forward_shape [3, 2, 3] [3, 2, 3] (some [1, 1]) = .ok [3, 2, 3] := by
  refine ⟨?_, rfl, rfl⟩
  obtain ⟨d, rest, rfl⟩ : ∃ d rest, fs = d :: rest := by
    cases fs with
    | nil =>
      rw [zip_reverse_eq _ _ hlen] at hmem
      simp [List.zip] at hmem
    | cons d rest => exact ⟨d, rest, rfl⟩
  have hbc : bcastDims (d :: rest).reverse xs.reverse = .error broadcast_error_msg :=
    bcastDims_bad a b hab ha hb _ _ hmem
  simp only [CPUForgetMult_forward_shape, split1Dim0, broadcastShapes, hbc, Except.map]

/-- Witness for the C9 amended theorem at a concrete input: F of shape
(2,3) and X of shape (2,5) are broadcast-incompatible in the last
dimension and the forward fails with the broadcast shape error. -/
theorem incompatible_shapes_error_witness :
    CPUForgetMult_forward_shape [2, 3] [2, 5] none = .error broadcast_error_msg
    ∧ CPUForgetMult_forward_shape [1, 1, 1] [1, 2, 1] none = .ok [1, 2, 1]
    ∧ CPUForgetMult_forward_shape [3, 2, 3] [3, 2, 3] (some [1, 1]) = .ok [3, 2, 3] :=
  incompatible_shapes_error [2, 3] [2, 5] none 3 5 rfl (by decide)
    (by decide) (by decide) (by decide)

/-- Claim C10: with acceleration requested, CUDA available and both
operands CUDA-resident, the dispatch takes the accelerated branch, which
evaluates the name `GPUForgetMult` — bound nowhere in the module — and
therefore raises a NameError instead of running the kernel; the
accelerated path is unreachable as shipped. -/
theorem gpu_branch_name_error (has_hidden_init : Bool) :
    ForgetMult_forward true true true true has_hidden_init
      = PyOutcome.nameError "name GPUForgetMult is not defined" := by
  cases has_hidden_init <;> rfl

end TorchQRNN
